import Mathlib

/-
Verification of the pseudo-table detector
(`backend/app/services/parsers/ppt_shapes.py`).

Shallow embedding conventions:
* Python `float` values are modelled as exact rationals (ℚ); the detector
  only compares, adds, subtracts, divides and rounds small decimal values.
* Python exceptions that can escape `parse` are modelled with `Except`:
  `AttributeError` (calling `.strip()` on a non-string `text` value) and
  `StatisticsError` (`statistics.median([])`).
* `pydantic` validation of one raw record either succeeds, is skipped
  (caught `ValueError`/`TypeError`), or raises `AttributeError`.
* Python's stable `sorted` / `list.sort` are modelled by
  `List.insertionSort` with a total preorder: both are stable sorts for
  the same key, hence produce the same list.
* `round(x, 2)` is modelled exactly as rounding `100*x` to an integer and
  dividing by 100 (tie-breaking differences with binary floats do not
  affect any value reached in this development).
-/

set_option maxRecDepth 100000

deriving instance DecidableEq for Except

namespace PPT

/-- Geometry data for a single shape (`class ShapeGeometry`). -/
structure ShapeGeometry where
  text : String
  top : ℚ
  left : ℚ
  width : ℚ
  height : ℚ
deriving Repr, DecidableEq

/-- Structure for detected pseudo-table data (`class PseudoTable`). -/
structure PseudoTable where
  type : String := "pseudo_table"
  confidence_score : ℚ
  bbox : List ℚ
  data : List (List (Option String))
deriving Repr, DecidableEq

/-- Constructor arguments of `PseudoTableParser` (`__init__` defaults:
x_tolerance = y_tolerance = 200000.0 EMU, min_rows = 3, min_cols = 2). -/
structure Config where
  x_tolerance : ℚ := 200000
  y_tolerance : ℚ := 200000
  min_rows : ℕ := 3
  min_cols : ℕ := 2
deriving Repr, DecidableEq

/-- The `text` entry of a raw input dictionary: a string, a present
non-string value (on which `.strip()` raises `AttributeError`), or absent
(`s.get("text", "")` then yields `""`). -/
inductive RawText where
  | str (s : String)
  | nonStr
  | absent
deriving Repr, DecidableEq

/-- A numeric entry of a raw input dictionary: a float-coercible value,
a present non-coercible value (pydantic raises `ValidationError`, a
`ValueError`), or absent (also a `ValidationError`). -/
inductive RawNum where
  | num (q : ℚ)
  | bad
  | absent
deriving Repr, DecidableEq

/-- One raw shape record as passed to `parse` (a Python dict). -/
structure RawShape where
  text : RawText := .absent
  top : RawNum := .absent
  left : RawNum := .absent
  width : RawNum := .absent
  height : RawNum := .absent
deriving Repr, DecidableEq

/-- Python exceptions that can escape `parse` in this model. -/
inductive PyError where
  | attributeError
  | statisticsError
deriving Repr, DecidableEq

/-- Validation of one raw record, from the loop in `parse`:
`if s.get("text", "").strip(): validated_shapes.append(ShapeGeometry(**s))`
wrapped in `try ... except (ValueError, TypeError): continue`.
`.ok none` means the record is skipped; `.error` means an uncaught
`AttributeError` (non-string `text`). -/
def validateShape (s : RawShape) : Except PyError (Option ShapeGeometry) :=
  match s.text with
  | .absent => .ok none
  | .nonStr => .error .attributeError
  | .str t =>
    if t.trim = "" then .ok none
    else
      match s.top, s.left, s.width, s.height with
      | .num a, .num b, .num c, .num d =>
        .ok (some { text := t, top := a, left := b, width := c, height := d })
      | _, _, _, _ => .ok none

/-- The whole validation loop of `parse`, aborting at the first uncaught
exception. -/
def validateShapes : List RawShape → Except PyError (List ShapeGeometry)
  | [] => .ok []
  | s :: rest =>
    match validateShape s with
    | .error e => .error e
    | .ok none => validateShapes rest
    | .ok (some g) =>
      match validateShapes rest with
      | .error e => .error e
      | .ok l => .ok (g :: l)

/-- Sort key of `sorted(validated_shapes, key=lambda s: (s.top, s.left))`. -/
def rowKeyLe (a b : ShapeGeometry) : Prop :=
  a.top < b.top ∨ (a.top = b.top ∧ a.left ≤ b.left)

instance : DecidableRel rowKeyLe := fun a b =>
  inferInstanceAs (Decidable (a.top < b.top ∨ (a.top = b.top ∧ a.left ≤ b.left)))

/-- Sort key of `sorted(validated_shapes, key=lambda s: (s.left, s.top))`. -/
def colKeyLe (a b : ShapeGeometry) : Prop :=
  a.left < b.left ∨ (a.left = b.left ∧ a.top ≤ b.top)

instance : DecidableRel colKeyLe := fun a b =>
  inferInstanceAs (Decidable (a.left < b.left ∨ (a.left = b.left ∧ a.top ≤ b.top)))

instance : IsTotal ShapeGeometry rowKeyLe := by
  constructor
  intro a b
  unfold rowKeyLe
  rcases lt_trichotomy a.top b.top with h | h | h
  · exact Or.inl (Or.inl h)
  · rcases le_total a.left b.left with hl | hl
    · exact Or.inl (Or.inr ⟨h, hl⟩)
    · exact Or.inr (Or.inr ⟨h.symm, hl⟩)
  · exact Or.inr (Or.inl h)

instance : IsTrans ShapeGeometry rowKeyLe := by
  constructor
  intro a b c hab hbc
  unfold rowKeyLe at *
  rcases hab with h1 | ⟨ht1, hl1⟩ <;> rcases hbc with h2 | ⟨ht2, hl2⟩
  · exact Or.inl (lt_trans h1 h2)
  · exact Or.inl (ht2 ▸ h1)
  · exact Or.inl (ht1 ▸ h2)
  · exact Or.inr ⟨ht1.trans ht2, hl1.trans hl2⟩

instance : IsTotal ShapeGeometry colKeyLe := by
  constructor
  intro a b
  unfold colKeyLe
  rcases lt_trichotomy a.left b.left with h | h | h
  · exact Or.inl (Or.inl h)
  · rcases le_total a.top b.top with hl | hl
    · exact Or.inl (Or.inr ⟨h, hl⟩)
    · exact Or.inr (Or.inr ⟨h.symm, hl⟩)
  · exact Or.inr (Or.inl h)

instance : IsTrans ShapeGeometry colKeyLe := by
  constructor
  intro a b c hab hbc
  unfold colKeyLe at *
  rcases hab with h1 | ⟨ht1, hl1⟩ <;> rcases hbc with h2 | ⟨ht2, hl2⟩
  · exact Or.inl (lt_trans h1 h2)
  · exact Or.inl (ht2 ▸ h1)
  · exact Or.inl (ht1 ▸ h2)
  · exact Or.inr ⟨ht1.trans ht2, hl1.trans hl2⟩

/-- Sort key of `row.sort(key=lambda s: s.left)`. -/
def leftLe (a b : ShapeGeometry) : Prop := a.left ≤ b.left

instance : DecidableRel leftLe := fun a b =>
  inferInstanceAs (Decidable (a.left ≤ b.left))

/-- Sort key of `column.sort(key=lambda s: s.top)`. -/
def topLe (a b : ShapeGeometry) : Prop := a.top ≤ b.top

instance : DecidableRel topLe := fun a b =>
  inferInstanceAs (Decidable (a.top ≤ b.top))

/-- `statistics.mean` (callers guarantee a nonempty list). -/
def mean (l : List ℚ) : ℚ := l.sum / l.length

/-- `statistics.median` (callers guard the empty list, which raises). -/
def median (l : List ℚ) : ℚ :=
  let s := List.insertionSort (· ≤ ·) l
  let n := s.length
  if n % 2 = 1 then s.getD (n / 2) 0
  else (s.getD (n / 2 - 1) 0 + s.getD (n / 2) 0) / 2

/-- `round(x, 2)`. -/
def roundTo2 (q : ℚ) : ℚ := (round (q * 100) : ℤ) / 100

/-- `max(0.0, min(1.0, score))`. -/
def clamp01 (q : ℚ) : ℚ := max 0 (min 1 q)

/-- `min(expr for s in shapes)` on a nonempty list. -/
def minList : List ℚ → ℚ
  | [] => 0
  | x :: xs => xs.foldl min x

/-- `max(expr for s in shapes)` on a nonempty list. -/
def maxList : List ℚ → ℚ
  | [] => 0
  | x :: xs => xs.foldl max x

/-- The loop body of `_cluster_rows`: `cur` is `current_row`, `curY` is
`current_y` (the anchor, set when the row was opened and never updated). -/
def clusterRowsAux (ytol : ℚ) (cur : List ShapeGeometry) (curY : ℚ) :
    List ShapeGeometry → List (List ShapeGeometry)
  | [] => [cur]
  | s :: rest =>
    if |s.top - curY| ≤ ytol then clusterRowsAux ytol (cur ++ [s]) curY rest
    else cur :: clusterRowsAux ytol [s] s.top rest

/-- `_cluster_rows` before the per-row `row.sort(key=lambda s: s.left)`. -/
def clusterRowsCore (ytol : ℚ) : List ShapeGeometry → List (List ShapeGeometry)
  | [] => []
  | s :: rest => clusterRowsAux ytol [s] s.top rest

/-- `_cluster_rows`: group shapes into rows based on Y-coordinate, then
sort each row by `left`. -/
def _cluster_rows (ytol : ℚ) (shapes : List ShapeGeometry) :
    List (List ShapeGeometry) :=
  (clusterRowsCore ytol shapes).map (List.insertionSort leftLe)

/-- The greedy clustering loop shared by `_detect_columns` and
`_detect_rows_in_columns`: the accumulator pairs the accepted centers
(`columns`) with the last accepted center (`columns[-1]`). -/
def detectCenters (tol : ℚ) : List ℚ → List ℚ
  | [] => []
  | v :: rest =>
    (rest.foldl
      (fun (acc : List ℚ × ℚ) l =>
        if |l - acc.2| > tol then (acc.1 ++ [l], l) else acc)
      ([v], v)).1

/-- `_detect_columns`: cluster the sorted `left` values of all shapes. -/
def _detect_columns (xtol : ℚ) (rows : List (List ShapeGeometry)) : List ℚ :=
  detectCenters xtol
    (List.insertionSort (· ≤ ·) ((rows.map (List.map ShapeGeometry.left)).flatten))

/-- `_validate_grid`.  `statistics.median([])` raises when `rows` is empty
(reachable from `parse` only when `min_rows = 0`). -/
def _validate_grid (rows : List (List ShapeGeometry)) (columns : List ℚ) :
    Except PyError Bool :=
  match rows with
  | [] => .error .statisticsError
  | _ :: _ =>
    let row_lengths : List ℚ := rows.map (fun r => (r.length : ℚ))
    let median_len := median row_lengths
    let consistent_rows := (row_lengths.filter (fun l => |l - median_len| ≤ 1)).length
    if ((consistent_rows : ℚ) / (rows.length : ℚ)) < 7 / 10 then .ok false
    else
      let total_shapes := row_lengths.sum
      let expected_cells := rows.length * columns.length
      let density :=
        if 0 < expected_cells then total_shapes / (expected_cells : ℚ) else 0
      .ok (decide (7 / 10 ≤ density))

/-- The `row_devs` list of `_calculate_confidence_score`. -/
def rowDevs (rows : List (List ShapeGeometry)) : List ℚ :=
  rows.filterMap (fun row =>
    if 1 < row.length then
      some (maxList (row.map ShapeGeometry.top) - minList (row.map ShapeGeometry.top))
    else none)

/-- The `col_devs` list of `_calculate_confidence_score`: spreads of
`left` over the shapes within `x_tolerance` of each column center. -/
def colShapesDevs (xtol : ℚ) (rows : List (List ShapeGeometry))
    (columns : List ℚ) : List ℚ :=
  columns.filterMap (fun col_left =>
    let col_shapes := rows.flatten.filter (fun s => |s.left - col_left| ≤ xtol)
    if 1 < col_shapes.length then
      some (maxList (col_shapes.map ShapeGeometry.left) -
            minList (col_shapes.map ShapeGeometry.left))
    else none)

/-- `1.0 - (statistics.mean(devs) / (tol * 2)) if devs else 1.0`. -/
def scoreFromDevs (tol : ℚ) (devs : List ℚ) : ℚ :=
  if devs = [] then 1 else 1 - mean devs / (tol * 2)

/-- `density = total / expected` in `_calculate_confidence_score`
(unguarded in the source; its only caller has already rejected grids with
`rows × columns = 0`, and ℚ-division by zero yields 0 here). -/
def densityOf (rows : List (List ShapeGeometry)) (columns : List ℚ) : ℚ :=
  (rows.map (fun r => (r.length : ℚ))).sum / ((rows.length * columns.length : ℕ) : ℚ)

/-- `round(max(0.0, min(1.0, a*0.3 + b*0.3 + d*0.4)), 2)` — the final
blend shared by both confidence functions. -/
def confFromParts (a b d : ℚ) : ℚ :=
  roundTo2 (clamp01 (a * (3 / 10) + b * (3 / 10) + d * (2 / 5)))

/-- `_calculate_confidence_score`. -/
def _calculate_confidence_score (xtol ytol : ℚ) (rows : List (List ShapeGeometry))
    (columns : List ℚ) : ℚ :=
  confFromParts (scoreFromDevs ytol (rowDevs rows))
    (scoreFromDevs xtol (colShapesDevs xtol rows columns))
    (densityOf rows columns)

/-- The inner loop of `_extract_grid_data`: running `(best_col, min_dist)`
state, `min_dist` starting at `float("inf")` (modelled as `none`);
the update uses a strict `<`, so the first column at minimal distance wins. -/
def bestColScan (left : ℚ) (columns : List ℚ) : ℕ × Option ℚ :=
  columns.enum.foldl
    (fun st p =>
      match st.2 with
      | none => (p.1, some |left - p.2|)
      | some d => if |left - p.2| < d then (p.1, some |left - p.2|) else st)
    (0, none)

/-- The column a shape's text is placed into, if its minimal distance to a
center is within `x_tolerance` (`if min_dist <= self.x_tolerance`). -/
def bestColumn (xtol : ℚ) (columns : List ℚ) (left : ℚ) : Option ℕ :=
  match bestColScan left columns with
  | (b, some d) => if d ≤ xtol then some b else none
  | (_, none) => none

/-- One `grid_row` of `_extract_grid_data`: starts as `[None] * len(columns)`
and is overwritten in row order (a later shape assigned to the same column
replaces the earlier text). -/
def extractRow (xtol : ℚ) (columns : List ℚ) (row : List ShapeGeometry) :
    List (Option String) :=
  row.foldl
    (fun gridRow s =>
      match bestColumn xtol columns s.left with
      | some i => gridRow.set i (some s.text.trim)
      | none => gridRow)
    (List.replicate columns.length none)

/-- `_extract_grid_data`. -/
def _extract_grid_data (xtol : ℚ) (rows : List (List ShapeGeometry))
    (columns : List ℚ) : List (List (Option String)) :=
  rows.map (extractRow xtol columns)

/-- One `min(f(s) for s in shapes)` pass (Python `min` raises on an empty
list; `parse` never reaches it with one, so `[]` gets a junk value). -/
def foldMinF (f : ShapeGeometry → ℚ) : List ShapeGeometry → ℚ
  | [] => 0
  | s :: rest => rest.foldl (fun a x => min a (f x)) (f s)

/-- One `max(f(s) for s in shapes)` pass over a nonempty list. -/
def foldMaxF (f : ShapeGeometry → ℚ) : List ShapeGeometry → ℚ
  | [] => 0
  | s :: rest => rest.foldl (fun a x => max a (f x)) (f s)

/-- `_calculate_bbox`: the four generator passes
`min(s.left)`, `min(s.top)`, `max(s.left + s.width)`,
`max(s.top + s.height)`. -/
def _calculate_bbox (shapes : List ShapeGeometry) : List ℚ :=
  [foldMinF (fun s => s.left) shapes,
   foldMinF (fun s => s.top) shapes,
   foldMaxF (fun s => s.left + s.width) shapes,
   foldMaxF (fun s => s.top + s.height) shapes]

/-- `_try_row_based_detection`. -/
def _try_row_based_detection (cfg : Config) (validated : List ShapeGeometry) :
    Except PyError (List PseudoTable) :=
  let sorted_shapes := List.insertionSort rowKeyLe validated
  let rows := _cluster_rows cfg.y_tolerance sorted_shapes
  if rows.length < cfg.min_rows then .ok []
  else
    let columns := _detect_columns cfg.x_tolerance rows
    if columns.length < cfg.min_cols then .ok []
    else
      match _validate_grid rows columns with
      | .error e => .error e
      | .ok false => .ok []
      | .ok true =>
        .ok [{ confidence_score :=
                 _calculate_confidence_score cfg.x_tolerance cfg.y_tolerance rows columns,
               bbox := _calculate_bbox sorted_shapes,
               data := _extract_grid_data cfg.x_tolerance rows columns }]

/-- The loop body of `_cluster_columns` (anchor `current_x`). -/
def clusterColsAux (xtol : ℚ) (cur : List ShapeGeometry) (curX : ℚ) :
    List ShapeGeometry → List (List ShapeGeometry)
  | [] => [cur]
  | s :: rest =>
    if |s.left - curX| ≤ xtol then clusterColsAux xtol (cur ++ [s]) curX rest
    else cur :: clusterColsAux xtol [s] s.left rest

/-- `_cluster_columns` before the per-column sort by `top`. -/
def clusterColsCore (xtol : ℚ) : List ShapeGeometry → List (List ShapeGeometry)
  | [] => []
  | s :: rest => clusterColsAux xtol [s] s.left rest

/-- `_cluster_columns`. -/
def _cluster_columns (xtol : ℚ) (shapes : List ShapeGeometry) :
    List (List ShapeGeometry) :=
  (clusterColsCore xtol shapes).map (List.insertionSort topLe)

/-- `_detect_rows_in_columns`: cluster the sorted `top` values. -/
def _detect_rows_in_columns (ytol : ℚ) (columns : List (List ShapeGeometry)) :
    List ℚ :=
  detectCenters ytol
    (List.insertionSort (· ≤ ·) ((columns.map (List.map ShapeGeometry.top)).flatten))

/-- `_validate_column_grid` (mirror of `_validate_grid`). -/
def _validate_column_grid (columns : List (List ShapeGeometry)) (rows : List ℚ) :
    Except PyError Bool :=
  match columns with
  | [] => .error .statisticsError
  | _ :: _ =>
    let column_lengths : List ℚ := columns.map (fun c => (c.length : ℚ))
    let median_len := median column_lengths
    let consistent_cols := (column_lengths.filter (fun l => |l - median_len| ≤ 1)).length
    if ((consistent_cols : ℚ) / (columns.length : ℚ)) < 7 / 10 then .ok false
    else
      let total_shapes := column_lengths.sum
      let expected_cells := columns.length * rows.length
      let density :=
        if 0 < expected_cells then total_shapes / (expected_cells : ℚ) else 0
      .ok (decide (7 / 10 ≤ density))

/-- The inner loop of `_transpose_columns_to_rows`: best
`(best_shape, min_dist)` for one column and one row position, strict `<`,
so the first shape at minimal distance wins. -/
def bestShapeScan (row_y : ℚ) (column : List ShapeGeometry) :
    Option (ShapeGeometry × ℚ) :=
  column.foldl
    (fun st s =>
      match st with
      | none => some (s, |s.top - row_y|)
      | some (_, d) => if |s.top - row_y| < d then some (s, |s.top - row_y|) else st)
    none

/-- One `grid_row` of `_transpose_columns_to_rows`.  In the source the row
starts as `[None] * len(columns)` and the loop assigns index `col_idx`
exactly once per column, which is precisely a `map` over the columns. -/
def transRow (ytol : ℚ) (columns : List (List ShapeGeometry)) (row_y : ℚ) :
    List (Option String) :=
  columns.map (fun column =>
    match bestShapeScan row_y column with
    | some (s, d) => if d ≤ ytol then some s.text.trim else none
    | none => none)

/-- `_transpose_columns_to_rows`. -/
def _transpose_columns_to_rows (ytol : ℚ) (columns : List (List ShapeGeometry))
    (rows : List ℚ) : List (List (Option String)) :=
  rows.map (transRow ytol columns)

/-- The `col_devs` list of `_calculate_column_confidence_score`. -/
def colDevsOfCols (columns : List (List ShapeGeometry)) : List ℚ :=
  columns.filterMap (fun column =>
    if 1 < column.length then
      some (maxList (column.map ShapeGeometry.left) -
            minList (column.map ShapeGeometry.left))
    else none)

/-- The `row_devs` list of `_calculate_column_confidence_score`. -/
def rowShapesDevs (ytol : ℚ) (columns : List (List ShapeGeometry))
    (rows : List ℚ) : List ℚ :=
  rows.filterMap (fun row_y =>
    let row_shapes := columns.flatten.filter (fun s => |s.top - row_y| ≤ ytol)
    if 1 < row_shapes.length then
      some (maxList (row_shapes.map ShapeGeometry.top) -
            minList (row_shapes.map ShapeGeometry.top))
    else none)

/-- `density` in `_calculate_column_confidence_score`. -/
def densityCols (columns : List (List ShapeGeometry)) (rows : List ℚ) : ℚ :=
  (columns.map (fun c => (c.length : ℚ))).sum /
    ((columns.length * rows.length : ℕ) : ℚ)

/-- `_calculate_column_confidence_score`
(`score = col_score*0.3 + row_score*0.3 + density*0.4`). -/
def _calculate_column_confidence_score (xtol ytol : ℚ)
    (columns : List (List ShapeGeometry)) (rows : List ℚ) : ℚ :=
  confFromParts (scoreFromDevs xtol (colDevsOfCols columns))
    (scoreFromDevs ytol (rowShapesDevs ytol columns rows))
    (densityCols columns rows)

/-- `_try_column_based_detection`. -/
def _try_column_based_detection (cfg : Config) (validated : List ShapeGeometry) :
    Except PyError (List PseudoTable) :=
  let sorted_shapes := List.insertionSort colKeyLe validated
  let columns := _cluster_columns cfg.x_tolerance sorted_shapes
  if columns.length < cfg.min_cols then .ok []
  else
    let rows := _detect_rows_in_columns cfg.y_tolerance columns
    if rows.length < cfg.min_rows then .ok []
    else
      match _validate_column_grid columns rows with
      | .error e => .error e
      | .ok false => .ok []
      | .ok true =>
        .ok [{ confidence_score :=
                 _calculate_column_confidence_score cfg.x_tolerance cfg.y_tolerance columns rows,
               bbox := _calculate_bbox sorted_shapes,
               data := _transpose_columns_to_rows cfg.y_tolerance columns rows }]

/-- `PseudoTableParser.parse`.  A nonempty Python list is truthy, hence the
first strategy returning a nonempty list short-circuits. -/
def parse (cfg : Config) (shapes : List RawShape) :
    Except PyError (List PseudoTable) :=
  match validateShapes shapes with
  | .error e => .error e
  | .ok validated =>
    if validated.length < cfg.min_rows * cfg.min_cols then .ok []
    else
      match _try_row_based_detection cfg validated with
      | .error e => .error e
      | .ok [] =>
        match _try_column_based_detection cfg validated with
        | .error e => .error e
        | .ok [] => .ok []
        | .ok c => .ok c
      | .ok r => .ok r

/-- Modelled from the spec (§4.2 step 2), for comparison with the source:
row clustering as a fold whose state is the finished rows, the current row
and its anchor; a shape joins the current row iff its `top` is within
`y_tolerance` of the anchor (the `top` of the first shape placed into the
row, never updated), otherwise it starts a new row with its own `top` as
the new anchor. -/
def clusterRowsSpec (ytol : ℚ) : List ShapeGeometry → List (List ShapeGeometry)
  | [] => []
  | s :: rest =>
    let final := rest.foldl
      (fun (st : List (List ShapeGeometry) × List ShapeGeometry × ℚ) sh =>
        if |sh.top - st.2.2| ≤ ytol then (st.1, st.2.1 ++ [sh], st.2.2)
        else (st.1 ++ [st.2.1], [sh], sh.top))
      ([], [s], s.top)
    final.1 ++ [final.2.1]

/-- Modelled from the spec (§4.2 step 4), for comparison with the source:
column centers as a fold over the sorted `left` values; the first value
starts column 1, each later value starts a new column iff it differs from
the last accepted column center by more than `x_tolerance`, and a merged
value never updates the anchor. -/
def detectCentersSpec (tol : ℚ) : List ℚ → List ℚ
  | [] => []
  | v :: rest =>
    rest.foldl
      (fun cols l => if |l - cols.getLastD v| > tol then cols ++ [l] else cols)
      [v]

/-- Default parser configuration (`PseudoTableParser()`). -/
def cfgDefault : Config := {}

/-- The configuration of the spec's end-to-end example (§8.9). -/
def cfgDemo : Config :=
  { x_tolerance := 10, y_tolerance := 10, min_rows := 3, min_cols := 2 }

/-- A well-formed raw record. -/
def mkRaw (t : String) (a b c d : ℚ) : RawShape :=
  { text := .str t, top := .num a, left := .num b, width := .num c, height := .num d }

/-- The spec's end-to-end example input (§8.9). -/
def demoShapes : List RawShape :=
  [ mkRaw "H1" 100 50 100 20, mkRaw "H2" 100 160 100 20,
    mkRaw "R1C1" 130 50 100 20, mkRaw "R1C2" 130 160 100 20,
    mkRaw "R2C1" 160 50 100 20, mkRaw "R2C2" 160 160 100 20 ]

/-- The table the detector produces on `demoShapes`. -/
def demoTable : PseudoTable :=
  { confidence_score := 1,
    bbox := [50, 100, 260, 180],
    data := [[some "H1", some "H2"],
             [some "R1C1", some "R1C2"],
             [some "R2C1", some "R2C2"]] }

/-- A record whose `text` is a non-empty string but whose `top` is not
float-coercible: pydantic raises `ValidationError` (caught). -/
def geomBadShape : RawShape :=
  { text := .str "X", top := .bad, left := .num 0, width := .num 0, height := .num 0 }

/-- A record whose `text` value is present but not a string, e.g.
`{"text": 123, "top": 0, "left": 0, "width": 0, "height": 0}`:
`(123).strip()` raises `AttributeError`, which the `except
(ValueError, TypeError)` clause does not catch. -/
def textNonStrShape : RawShape :=
  { text := .nonStr, top := .num 0, left := .num 0, width := .num 0, height := .num 0 }

/-- Number of input records with non-empty text after trimming whitespace
(the quantity named by the minimum-size-rejection property). -/
def textedCount (shapes : List RawShape) : ℕ :=
  (shapes.filter (fun s =>
    match s.text with
    | .str t => !(t.trim == "")
    | _ => false)).length

/-- C9 counterexample fixture: a single malformed record, so zero shapes
have non-empty text. -/
def c9BadList : List RawShape :=
  [{ text := .nonStr, top := .num 1, left := .num 2, width := .num 3, height := .num 4 }]

/-- C9 witness fixture: five well-formed shapes (fewer than 3 × 2). -/
def c9FiveShapes : List RawShape :=
  [ mkRaw "A" 100 50 10 10, mkRaw "B" 100 160 10 10,
    mkRaw "C" 130 50 10 10, mkRaw "D" 130 160 10 10,
    mkRaw "E" 160 50 10 10 ]

/-- Two shapes at the identical position (100, 50) with different texts. -/
def c6DupA : RawShape := mkRaw "A" 100 50 100 20

/-- Second shape at position (100, 50). -/
def c6DupB : RawShape := mkRaw "B" 100 50 100 20

/-- The other five shapes of the C6 counterexample grid. -/
def c6Rest : List RawShape :=
  [ mkRaw "H2" 100 160 100 20,
    mkRaw "R1C1" 130 50 100 20, mkRaw "R1C2" 130 160 100 20,
    mkRaw "R2C1" 160 50 100 20, mkRaw "R2C2" 160 160 100 20 ]

/-- C6 counterexample, first ordering. -/
def c6Order1 : List RawShape := c6DupA :: c6DupB :: c6Rest

/-- C6 counterexample, second ordering (the two coincident shapes swapped). -/
def c6Order2 : List RawShape := c6DupB :: c6DupA :: c6Rest

/-- The table detected on `c6Order1` (text "B" wins cell (0,0)). -/
def c6TableWithB : PseudoTable :=
  { confidence_score := 1,
    bbox := [50, 100, 260, 180],
    data := [[some "B", some "H2"],
             [some "R1C1", some "R1C2"],
             [some "R2C1", some "R2C2"]] }

/-- The table detected on `c6Order2` (text "A" wins cell (0,0)). -/
def c6TableWithA : PseudoTable :=
  { confidence_score := 1,
    bbox := [50, 100, 260, 180],
    data := [[some "A", some "H2"],
             [some "R1C1", some "R1C2"],
             [some "R2C1", some "R2C2"]] }

/-- The validated shapes of the example input. -/
def demoValidated : List ShapeGeometry :=
  [⟨"H1", 100, 50, 100, 20⟩, ⟨"H2", 100, 160, 100, 20⟩,
   ⟨"R1C1", 130, 50, 100, 20⟩, ⟨"R1C2", 130, 160, 100, 20⟩,
   ⟨"R2C1", 160, 50, 100, 20⟩, ⟨"R2C2", 160, 160, 100, 20⟩]

/-- C10 fixture: a row whose first two shapes both have column 0 (left
values 50 and 55, both within tolerance 10 of center 50) — the second one
overwrites the first in the extracted grid. -/
def c10Row : List ShapeGeometry :=
  [⟨"A", 100, 50, 20, 10⟩, ⟨"B", 100, 55, 20, 10⟩, ⟨"C", 100, 160, 20, 10⟩]

end PPT

namespace PPT

/-- C1: for a parser configured with x_tolerance = 10, y_tolerance = 10,
min_rows = 3, min_cols = 2, `parse` on the six example shapes returns
exactly one table whose data is the 3 × 2 grid
[["H1","H2"],["R1C1","R1C2"],["R2C1","R2C2"]] and whose confidence_score
is at least 0.9 (here exactly 1.0). -/
theorem C1_end_to_end :
    parse cfgDemo demoShapes = .ok [demoTable] ∧
    demoTable.data = [[some "H1", some "H2"],
                      [some "R1C1", some "R1C2"],
                      [some "R2C1", some "R2C2"]] ∧
    (9 : ℚ) / 10 ≤ demoTable.confidence_score := by
  refine ⟨by with_unfolding_all rfl, rfl, by norm_num [demoTable]⟩

/-- C3: the code contradicts the claim that `parse` never raises.  A record
with a malformed geometry field is indeed skipped silently (first
conjunct: appending such a record leaves the result unchanged), but a
record whose `text` value is present and not a string makes `parse` raise
`AttributeError`: `s.get("text", "").strip()` is evaluated inside a
`try` block that only catches `ValueError` and `TypeError`. -/
theorem C3_parse_raises_on_nonstring_text :
    parse cfgDemo (demoShapes ++ [geomBadShape]) = .ok [demoTable] ∧
    parse cfgDemo (demoShapes ++ [textNonStrShape]) = .error .attributeError := by
  exact ⟨by with_unfolding_all rfl, by with_unfolding_all rfl⟩

/-- A record whose `text` is a string or missing never raises during
validation. -/
theorem validateShape_ok_of_no_nonStr (s : RawShape) (h : s.text ≠ .nonStr) :
    ∃ o, validateShape s = .ok o := by
  unfold validateShape
  match htext : s.text with
  | .nonStr => exact absurd htext h
  | .absent => exact ⟨none, rfl⟩
  | .str t =>
    by_cases htrim : t.trim = ""
    · exact ⟨none, by simp [htrim]⟩
    · simp only [htrim, if_false]
      split
      · exact ⟨_, rfl⟩
      · exact ⟨none, rfl⟩

/-- If no record has a present non-string `text`, validation succeeds and
keeps at most as many shapes as there are records with non-empty trimmed
text. -/
theorem validateShapes_ok_of_no_nonStr (shapes : List RawShape)
    (h : ∀ s ∈ shapes, s.text ≠ .nonStr) :
    ∃ v, validateShapes shapes = .ok v ∧ v.length ≤ textedCount shapes := by
  induction shapes with
  | nil => exact ⟨[], rfl, by simp [textedCount]⟩
  | cons s rest ih =>
    obtain ⟨v, hv, hlen⟩ := ih (fun x hx => h x (List.mem_cons_of_mem _ hx))
    have hs := h s (List.mem_cons_self _ _)
    obtain ⟨o, ho⟩ := validateShape_ok_of_no_nonStr s hs
    have hmon : textedCount rest ≤ textedCount (s :: rest) := by
      by_cases hp : (match s.text with
          | .str t => !(t.trim == "")
          | _ => false) = true
      · simp [textedCount, List.filter_cons, hp]
      · simp [textedCount, List.filter_cons, hp]
    match o, ho with
    | none, ho =>
      exact ⟨v, by simp [validateShapes, ho, hv], le_trans hlen hmon⟩
    | some g, ho =>
      have hsome : ∃ t, s.text = .str t ∧ t.trim ≠ "" := by
        match htext : s.text with
        | .nonStr => exact absurd htext hs
        | .absent => simp [validateShape, htext] at ho
        | .str t =>
          refine ⟨t, rfl, fun htrim => ?_⟩
          simp [validateShape, htext, htrim] at ho
      obtain ⟨t, htext, htrim⟩ := hsome
      have hcount : textedCount (s :: rest) = textedCount rest + 1 := by
        have hp : (match s.text with
            | .str t => !(t.trim == "")
            | _ => false) = true := by
          simp [htext, htrim]
        simp [textedCount, List.filter_cons, hp]
      refine ⟨g :: v, by simp [validateShapes, ho, hv], ?_⟩
      simpa [hcount] using Nat.add_le_add_right hlen 1

/-- C9 (amended): if every record's `text` is a string or missing, and
fewer than `min_rows * min_cols` records have non-empty text after
trimming whitespace, then `parse` returns the empty result. -/
theorem C9_minimum_size_rejection (cfg : Config) (shapes : List RawShape)
    (hstr : ∀ s ∈ shapes, s.text ≠ .nonStr)
    (hcount : textedCount shapes < cfg.min_rows * cfg.min_cols) :
    parse cfg shapes = .ok [] := by
  obtain ⟨v, hv, hlen⟩ := validateShapes_ok_of_no_nonStr shapes hstr
  have hlt : v.length < cfg.min_rows * cfg.min_cols := lt_of_le_of_lt hlen hcount
  simp [parse, hv, hlt]

/-- C9 counterexample: a list with zero non-empty-text shapes (fewer than
3 × 2) on which `parse` does not return the empty result — it raises
`AttributeError` on the present non-string `text` value. -/
theorem C9_counterexample :
    textedCount c9BadList < cfgDefault.min_rows * cfgDefault.min_cols ∧
    parse cfgDefault c9BadList ≠ .ok [] := by
  exact ⟨by with_unfolding_all decide, by with_unfolding_all decide⟩

/-- C9 witness: five well-formed shapes are rejected by the minimum-size
check. -/
theorem C9_witness :
    parse cfgDefault c9FiveShapes = .ok [] :=
  C9_minimum_size_rejection cfgDefault c9FiveShapes
    (by with_unfolding_all decide) (by with_unfolding_all decide)

/-- C6 counterexample: two orderings of the same seven shapes (two of
them share the position (100, 50) with different texts) give different
grid data — cell (0, 0) holds "B" for one ordering and "A" for the
other, so `parse` is not order-invariant. -/
theorem C6_counterexample :
    c6Order1.Perm c6Order2 ∧
    parse cfgDemo c6Order1 = .ok [c6TableWithB] ∧
    parse cfgDemo c6Order2 = .ok [c6TableWithA] ∧
    c6TableWithB.data ≠ c6TableWithA.data := by
  refine ⟨by with_unfolding_all decide, by with_unfolding_all rfl,
    by with_unfolding_all rfl, by decide⟩

/-- Case analysis of a successful `_try_row_based_detection` run. -/
theorem tryRow_ok_cases (cfg : Config) (v : List ShapeGeometry)
    (l : List PseudoTable) (h : _try_row_based_detection cfg v = .ok l) :
    l = [] ∨
    ∃ rows columns,
      rows = _cluster_rows cfg.y_tolerance (List.insertionSort rowKeyLe v) ∧
      columns = _detect_columns cfg.x_tolerance rows ∧
      cfg.min_rows ≤ rows.length ∧ cfg.min_cols ≤ columns.length ∧
      _validate_grid rows columns = .ok true ∧
      l = [{ confidence_score :=
               _calculate_confidence_score cfg.x_tolerance cfg.y_tolerance rows columns,
             bbox := _calculate_bbox (List.insertionSort rowKeyLe v),
             data := _extract_grid_data cfg.x_tolerance rows columns }] := by
  simp only [_try_row_based_detection] at h
  split at h
  next h1 =>
    left
    exact (Except.ok.inj h).symm
  next h1 =>
    split at h
    next h2 =>
      left
      exact (Except.ok.inj h).symm
    next h2 =>
      split at h
      next e heq =>
        exact absurd h (by simp)
      next heq =>
        left
        exact (Except.ok.inj h).symm
      next heq =>
        right
        exact ⟨_, _, rfl, rfl, Nat.le_of_not_lt h1, Nat.le_of_not_lt h2, heq,
          (Except.ok.inj h).symm⟩

/-- Case analysis of a successful `_try_column_based_detection` run. -/
theorem tryCol_ok_cases (cfg : Config) (v : List ShapeGeometry)
    (l : List PseudoTable) (h : _try_column_based_detection cfg v = .ok l) :
    l = [] ∨
    ∃ columns rows,
      columns = _cluster_columns cfg.x_tolerance (List.insertionSort colKeyLe v) ∧
      rows = _detect_rows_in_columns cfg.y_tolerance columns ∧
      cfg.min_cols ≤ columns.length ∧ cfg.min_rows ≤ rows.length ∧
      _validate_column_grid columns rows = .ok true ∧
      l = [{ confidence_score :=
               _calculate_column_confidence_score cfg.x_tolerance cfg.y_tolerance columns rows,
             bbox := _calculate_bbox (List.insertionSort colKeyLe v),
             data := _transpose_columns_to_rows cfg.y_tolerance columns rows }] := by
  simp only [_try_column_based_detection] at h
  split at h
  next h1 =>
    left
    exact (Except.ok.inj h).symm
  next h1 =>
    split at h
    next h2 =>
      left
      exact (Except.ok.inj h).symm
    next h2 =>
      split at h
      next e heq =>
        exact absurd h (by simp)
      next heq =>
        left
        exact (Except.ok.inj h).symm
      next heq =>
        right
        exact ⟨_, _, rfl, rfl, Nat.le_of_not_lt h1, Nat.le_of_not_lt h2, heq,
          (Except.ok.inj h).symm⟩

/-- Case analysis of a successful `parse` run: the validated list exists,
and the result is the early-exit empty list, a nonempty row-based result,
or (when row-based detection produced nothing) the column-based result. -/
theorem parse_ok_cases (cfg : Config) (raw : List RawShape)
    (l : List PseudoTable) (h : parse cfg raw = .ok l) :
    ∃ v, validateShapes raw = .ok v ∧
      ((v.length < cfg.min_rows * cfg.min_cols ∧ l = []) ∨
       (¬ v.length < cfg.min_rows * cfg.min_cols ∧
         ((_try_row_based_detection cfg v = .ok l ∧ l ≠ []) ∨
          (_try_row_based_detection cfg v = .ok [] ∧
           _try_column_based_detection cfg v = .ok l)))) := by
  unfold parse at h
  split at h
  · exact absurd h (by simp)
  · next v heq =>
    refine ⟨v, heq, ?_⟩
    split at h
    · next hlt =>
      left
      exact ⟨hlt, (Except.ok.inj h).symm⟩
    · next hge =>
      right
      refine ⟨hge, ?_⟩
      split at h
      · exact absurd h (by simp)
      · next heq2 =>
        right
        refine ⟨heq2, ?_⟩
        split at h
        · exact absurd h (by simp)
        · next heq3 =>
          rw [heq3, ← Except.ok.inj h]
        · next c heq3 =>
          rw [heq3, Except.ok.inj h]
      · next a as heq2 =>
        left
        have hal : a = l := Except.ok.inj h
        subst hal
        exact ⟨heq2, fun hn => as hn⟩

/-- C5: `parse` returns at most one table, and the strategies are tried in
a fixed order: a nonempty row-based result is returned immediately
(column-based detection is not consulted); when row-based detection yields
nothing the column-based result (possibly empty) is returned. -/
theorem C5_strategy_order (cfg : Config) (raw : List RawShape) :
    (∀ l, parse cfg raw = .ok l → l.length ≤ 1) ∧
    (∀ v, validateShapes raw = .ok v →
      ¬ v.length < cfg.min_rows * cfg.min_cols →
      (∀ r, _try_row_based_detection cfg v = .ok r → r ≠ [] →
        parse cfg raw = .ok r) ∧
      (∀ c, _try_row_based_detection cfg v = .ok [] →
        _try_column_based_detection cfg v = .ok c →
        parse cfg raw = .ok c)) := by
  constructor
  · intro l hl
    obtain ⟨v, hv, hcase⟩ := parse_ok_cases cfg raw l hl
    rcases hcase with ⟨_, rfl⟩ | ⟨_, ⟨hrow, hne⟩ | ⟨hrow0, hcol⟩⟩
    · simp
    · rcases tryRow_ok_cases cfg v l hrow with rfl | ⟨_, _, _, _, _, _, _, rfl⟩
      · simp
      · simp
    · rcases tryCol_ok_cases cfg v l hcol with rfl | ⟨_, _, _, _, _, _, _, rfl⟩
      · simp
      · simp
  · intro v hv hge
    constructor
    · intro r hr hrne
      cases r with
      | nil => exact absurd rfl hrne
      | cons a as => simp [parse, hv, hge, hr]
    · intro c hrow hcol
      cases c with
      | nil => simp [parse, hv, hge, hrow, hcol]
      | cons a as => simp [parse, hv, hge, hrow, hcol]

/-- C5 witness: on the example input, row-based detection yields the demo
table and `parse` returns it. -/
theorem C5_witness : parse cfgDemo demoShapes = .ok [demoTable] :=
  ((C5_strategy_order cfgDemo demoShapes).2
      ((validateShapes demoShapes).toOption.getD [])
      (by with_unfolding_all rfl) (by with_unfolding_all decide)).1
    [demoTable] (by with_unfolding_all rfl) (by decide)

/-- The clamped blend lies in [0, 1] below. -/
theorem clamp01_nonneg (q : ℚ) : 0 ≤ clamp01 q := le_max_left 0 (min 1 q)

/-- The clamped blend lies in [0, 1] above. -/
theorem clamp01_le_one (q : ℚ) : clamp01 q ≤ 1 :=
  max_le zero_le_one (min_le_left 1 q)

/-- Rounding to 2 decimals is monotone. -/
theorem roundTo2_mono {p q : ℚ} (h : p ≤ q) : roundTo2 p ≤ roundTo2 q := by
  unfold roundTo2
  have hr : round (p * 100) ≤ round (q * 100) := by
    rw [round_eq, round_eq]
    exact Int.floor_mono (by linarith)
  have hc : ((round (p * 100) : ℤ) : ℚ) ≤ ((round (q * 100) : ℤ) : ℚ) :=
    Int.cast_le.mpr hr
  linarith

/-- `roundTo2` fixes 0. -/
theorem roundTo2_zero : roundTo2 0 = 0 := by
  unfold roundTo2
  have h : round ((0 : ℚ) * 100) = 0 := by
    rw [show ((0 : ℚ) * 100) = ((0 : ℤ) : ℚ) by norm_num]
    exact round_intCast 0
  rw [h]
  norm_num

/-- `roundTo2` fixes 1. -/
theorem roundTo2_one : roundTo2 1 = 1 := by
  unfold roundTo2
  have h : round ((1 : ℚ) * 100) = 100 := by
    rw [show ((1 : ℚ) * 100) = ((100 : ℤ) : ℚ) by norm_num]
    exact round_intCast 100
  rw [h]
  norm_num

/-- `clamp01` below 0 yields 0. -/
theorem clamp01_of_nonpos {q : ℚ} (h : q ≤ 0) : clamp01 q = 0 := by
  unfold clamp01
  rw [min_eq_right (le_trans h zero_le_one), max_eq_left h]

/-- `clamp01` inside [0, 1] is the identity. -/
theorem clamp01_of_mem {q : ℚ} (h0 : 0 ≤ q) (h1 : q ≤ 1) : clamp01 q = q := by
  unfold clamp01
  rw [min_eq_right h1, max_eq_right h0]

/-- `clamp01` above 1 yields 1. -/
theorem clamp01_of_one_le {q : ℚ} (h : 1 ≤ q) : clamp01 q = 1 := by
  unfold clamp01
  rw [min_eq_left h, max_eq_right zero_le_one]

/-- Clamping before rounding (as the source does) agrees with rounding
before clamping (as the spec sentence reads): the claim holds under
either reading. -/
theorem roundTo2_clamp01_comm (q : ℚ) :
    roundTo2 (clamp01 q) = clamp01 (roundTo2 q) := by
  rcases le_or_lt q 0 with h0 | h0
  · rw [clamp01_of_nonpos h0, roundTo2_zero]
    have hle : roundTo2 q ≤ 0 := by
      have := roundTo2_mono h0
      rwa [roundTo2_zero] at this
    rw [clamp01_of_nonpos hle]
  · rcases le_or_lt q 1 with h1 | h1
    · rw [clamp01_of_mem (le_of_lt h0) h1]
      have hge : 0 ≤ roundTo2 q := by
        have := roundTo2_mono (le_of_lt h0)
        rwa [roundTo2_zero] at this
      have hle : roundTo2 q ≤ 1 := by
        have := roundTo2_mono h1
        rwa [roundTo2_one] at this
      rw [clamp01_of_mem hge hle]
    · rw [clamp01_of_one_le (le_of_lt h1), roundTo2_one]
      have hge : 1 ≤ roundTo2 q := by
        have := roundTo2_mono (le_of_lt h1)
        rwa [roundTo2_one] at this
      rw [clamp01_of_one_le hge]

/-- The final confidence blend is never negative. -/
theorem confFromParts_nonneg (a b d : ℚ) : 0 ≤ confFromParts a b d := by
  have := roundTo2_mono (clamp01_nonneg (a * (3 / 10) + b * (3 / 10) + d * (2 / 5)))
  rw [roundTo2_zero] at this
  exact this

/-- The final confidence blend never exceeds 1. -/
theorem confFromParts_le_one (a b d : ℚ) : confFromParts a b d ≤ 1 := by
  have := roundTo2_mono (clamp01_le_one (a * (3 / 10) + b * (3 / 10) + d * (2 / 5)))
  rw [roundTo2_one] at this
  exact this

/-- C2: whenever `parse` returns a table, the confidence score equals
`confFromParts` — the blend `0.3·a + 0.3·b + 0.4·d`, clamped to [0, 1]
and rounded to 2 decimals — of that run's row score, column score and
density: the rows and columns in the formula are pinned to the run's
detected grid (the validated shapes of the input, sorted by the code's
key, clustered and column-detected with the configured tolerances), via
`_calculate_confidence_score` (row strategy) or
`_calculate_column_confidence_score` (column strategy); in particular the
score lies in the interval [0.0, 1.0]. -/
theorem C2_confidence_formula (cfg : Config) (raw : List RawShape)
    (l : List PseudoTable) (t : PseudoTable) (h : parse cfg raw = .ok l)
    (ht : t ∈ l) :
    (∃ v, validateShapes raw = .ok v ∧
      ((∃ rows columns,
          rows = _cluster_rows cfg.y_tolerance (List.insertionSort rowKeyLe v) ∧
          columns = _detect_columns cfg.x_tolerance rows ∧
          t.confidence_score =
            _calculate_confidence_score cfg.x_tolerance cfg.y_tolerance rows columns ∧
          t.confidence_score =
            confFromParts (scoreFromDevs cfg.y_tolerance (rowDevs rows))
              (scoreFromDevs cfg.x_tolerance (colShapesDevs cfg.x_tolerance rows columns))
              (densityOf rows columns)) ∨
       (∃ columns rows,
          columns = _cluster_columns cfg.x_tolerance (List.insertionSort colKeyLe v) ∧
          rows = _detect_rows_in_columns cfg.y_tolerance columns ∧
          t.confidence_score =
            _calculate_column_confidence_score cfg.x_tolerance cfg.y_tolerance columns rows ∧
          t.confidence_score =
            confFromParts (scoreFromDevs cfg.x_tolerance (colDevsOfCols columns))
              (scoreFromDevs cfg.y_tolerance (rowShapesDevs cfg.y_tolerance columns rows))
              (densityCols columns rows)))) ∧
    0 ≤ t.confidence_score ∧ t.confidence_score ≤ 1 := by
  obtain ⟨v, hv, hcase⟩ := parse_ok_cases cfg raw l h
  rcases hcase with ⟨_, rfl⟩ | ⟨_, ⟨hrow, hne⟩ | ⟨hrow0, hcol⟩⟩
  · exact absurd ht (List.not_mem_nil t)
  · rcases tryRow_ok_cases cfg v l hrow with rfl | ⟨rows, columns, hr, hc, _, _, _, rfl⟩
    · exact absurd ht (List.not_mem_nil t)
    · have hts := List.mem_singleton.mp ht
      subst hts
      exact ⟨⟨v, hv, Or.inl ⟨rows, columns, hr, hc, rfl, rfl⟩⟩,
        confFromParts_nonneg _ _ _, confFromParts_le_one _ _ _⟩
  · rcases tryCol_ok_cases cfg v l hcol with rfl | ⟨columns, rows, hc, hr, _, _, _, rfl⟩
    · exact absurd ht (List.not_mem_nil t)
    · have hts := List.mem_singleton.mp ht
      subst hts
      exact ⟨⟨v, hv, Or.inr ⟨columns, rows, hc, hr, rfl, rfl⟩⟩,
        confFromParts_nonneg _ _ _, confFromParts_le_one _ _ _⟩

/-- C2 witness: the example table's confidence score is in [0, 1]. -/
theorem C2_witness :
    0 ≤ demoTable.confidence_score ∧ demoTable.confidence_score ≤ 1 :=
  (C2_confidence_formula cfgDemo demoShapes [demoTable] demoTable
    (by with_unfolding_all rfl) (List.mem_singleton.mpr rfl)).2

/-- The extracted grid row always has exactly one slot per detected
column (`[None] * len(columns)`, updated in place). -/
theorem extractRow_length (xtol : ℚ) (columns : List ℚ)
    (row : List ShapeGeometry) :
    (extractRow xtol columns row).length = columns.length := by
  suffices hgen : ∀ g : List (Option String),
      (row.foldl (fun gridRow s =>
        match bestColumn xtol columns s.left with
        | some i => gridRow.set i (some s.text.trim)
        | none => gridRow) g).length = g.length by
    simpa [extractRow] using hgen (List.replicate columns.length none)
  intro g
  induction row generalizing g with
  | nil => rfl
  | cons s rest ih =>
    simp only [List.foldl_cons]
    rw [ih]
    cases bestColumn xtol columns s.left <;> simp

/-- A validated grid has at least one row (the empty list would have made
`statistics.median` raise instead of validating). -/
theorem validate_grid_true_rows_ne (rows : List (List ShapeGeometry))
    (columns : List ℚ) (h : _validate_grid rows columns = .ok true) :
    rows ≠ [] := by
  intro hnil
  subst hnil
  simp [_validate_grid] at h

/-- A validated column grid has at least one column. -/
theorem validate_column_grid_true_cols_ne (columns : List (List ShapeGeometry))
    (rows : List ℚ) (h : _validate_column_grid columns rows = .ok true) :
    columns ≠ [] := by
  intro hnil
  subst hnil
  simp [_validate_column_grid] at h

/-- Every cluster produced by the column-clustering loop is nonempty. -/
theorem clusterColsAux_ne_nil (xtol : ℚ) :
    ∀ (rest : List ShapeGeometry) (cur : List ShapeGeometry) (curX : ℚ),
      cur ≠ [] → ∀ c ∈ clusterColsAux xtol cur curX rest, c ≠ [] := by
  intro rest
  induction rest with
  | nil =>
    intro cur curX hcur c hc
    simp only [clusterColsAux, List.mem_singleton] at hc
    exact hc ▸ hcur
  | cons s rest ih =>
    intro cur curX hcur c hc
    simp only [clusterColsAux] at hc
    split at hc
    · exact ih (cur ++ [s]) curX (by simp) c hc
    · rcases List.mem_cons.mp hc with rfl | hmem
      · exact hcur
      · exact ih [s] s.left (by simp) c hmem

/-- Every column built by `_cluster_columns` is nonempty. -/
theorem cluster_columns_mem_ne_nil (xtol : ℚ) (shapes : List ShapeGeometry) :
    ∀ c ∈ _cluster_columns xtol shapes, c ≠ [] := by
  intro c hc
  unfold _cluster_columns at hc
  obtain ⟨c0, hc0, rfl⟩ := List.mem_map.mp hc
  have hlen : (List.insertionSort topLe c0).length = c0.length :=
    List.length_insertionSort _ _
  have hc0ne : c0 ≠ [] := by
    cases shapes with
    | nil => simp [clusterColsCore] at hc0
    | cons s rest => exact clusterColsAux_ne_nil xtol rest [s] s.left (by simp) c0 hc0
  intro hnil
  apply hc0ne
  have : c0.length = 0 := by rw [← hlen, hnil]; rfl
  exact List.length_eq_zero.mp this

/-- The greedy center-clustering loop never returns an empty list on a
nonempty input. -/
theorem detectCenters_ne_nil (tol : ℚ) (l : List ℚ) (h : l ≠ []) :
    detectCenters tol l ≠ [] := by
  match l, h with
  | v :: rest, _ =>
    suffices hgen : ∀ (rest : List ℚ) (acc : List ℚ × ℚ), acc.1 ≠ [] →
        (rest.foldl (fun (acc : List ℚ × ℚ) l =>
          if |l - acc.2| > tol then (acc.1 ++ [l], l) else acc) acc).1 ≠ [] by
      exact hgen rest ([v], v) (by simp)
    intro rest
    induction rest with
    | nil => intro acc hacc; exact hacc
    | cons x rest ih =>
      intro acc hacc
      simp only [List.foldl_cons]
      by_cases hx : |x - acc.2| > tol
      · rw [if_pos hx]
        exact ih (acc.1 ++ [x], x) (by simp)
      · rw [if_neg hx]
        exact ih acc hacc

/-- C4: every returned table's data is a proper grid — all rows have the
same length (the number of detected columns, at least `min_cols`), and
there are at least `min_rows` rows; in particular the grid is nonempty
and its first row has the full width. -/
theorem C4_grid_shape (cfg : Config) (raw : List RawShape)
    (l : List PseudoTable) (t : PseudoTable) (h : parse cfg raw = .ok l)
    (ht : t ∈ l) :
    ∃ ncols, cfg.min_cols ≤ ncols ∧
      (∀ row ∈ t.data, row.length = ncols) ∧
      cfg.min_rows ≤ t.data.length ∧
      t.data ≠ [] ∧ (t.data.headD []).length = ncols := by
  obtain ⟨v, hv, hcase⟩ := parse_ok_cases cfg raw l h
  rcases hcase with ⟨_, rfl⟩ | ⟨_, ⟨hrow, hne⟩ | ⟨hrow0, hcol⟩⟩
  · exact absurd ht (List.not_mem_nil t)
  · rcases tryRow_ok_cases cfg v l hrow with rfl | ⟨rows, columns, hr, hc, hnr, hnc, hval, rfl⟩
    · exact absurd ht (List.not_mem_nil t)
    · have hts := List.mem_singleton.mp ht
      subst hts
      have hrowsne : rows ≠ [] := validate_grid_true_rows_ne rows columns hval
      refine ⟨columns.length, hnc, ?_, ?_, ?_, ?_⟩
      · intro row hrowmem
        obtain ⟨r0, _, rfl⟩ := List.mem_map.mp hrowmem
        exact extractRow_length cfg.x_tolerance columns r0
      · simpa [_extract_grid_data] using hnr
      · simpa [_extract_grid_data] using hrowsne
      · match rows, hrowsne with
        | r0 :: rs, _ =>
          simpa [_extract_grid_data] using extractRow_length cfg.x_tolerance columns r0
  · rcases tryCol_ok_cases cfg v l hcol with rfl | ⟨columns, rows, hc, hr, hnc, hnr, hval, rfl⟩
    · exact absurd ht (List.not_mem_nil t)
    · have hts := List.mem_singleton.mp ht
      subst hts
      have hcolsne : columns ≠ [] := validate_column_grid_true_cols_ne columns rows hval
      have hrowsne : rows ≠ [] := by
        rw [hr]
        apply detectCenters_ne_nil
        intro hsortnil
        have hflat : (columns.map (List.map ShapeGeometry.top)).flatten = [] := by
          have hlen := congrArg List.length hsortnil
          rw [List.length_insertionSort] at hlen
          exact List.length_eq_zero.mp hlen
        have hall := List.flatten_eq_nil_iff.mp hflat
        match columns, hcolsne, hc with
        | c0 :: cs, _, hc =>
          have hc0maps : List.map ShapeGeometry.top c0 = [] := hall _ (by simp)
          have hc0nil : c0 = [] := by
            have hlen2 := congrArg List.length hc0maps
            simp only [List.length_map] at hlen2
            exact List.length_eq_zero.mp hlen2
          have hc0mem : c0 ∈ _cluster_columns cfg.x_tolerance
              (List.insertionSort colKeyLe v) := by
            rw [← hc]
            simp
          exact cluster_columns_mem_ne_nil cfg.x_tolerance _ c0 hc0mem hc0nil
      refine ⟨columns.length, hnc, ?_, ?_, ?_, ?_⟩
      · intro row hrowmem
        obtain ⟨y, _, rfl⟩ := List.mem_map.mp hrowmem
        simp [transRow]
      · simpa [_transpose_columns_to_rows] using hnr
      · simpa [_transpose_columns_to_rows] using hrowsne
      · match rows, hrowsne with
        | y0 :: ys, _ =>
          simp [_transpose_columns_to_rows, transRow]

/-- C4 witness: the example table is a 3-row grid of width 2. -/
theorem C4_witness :
    ∃ ncols, cfgDemo.min_cols ≤ ncols ∧
      (∀ row ∈ demoTable.data, row.length = ncols) ∧
      cfgDemo.min_rows ≤ demoTable.data.length ∧
      demoTable.data ≠ [] ∧ (demoTable.data.headD []).length = ncols :=
  C4_grid_shape cfgDemo demoShapes [demoTable] demoTable
    (by with_unfolding_all rfl) (List.mem_singleton.mpr rfl)

/-- A running minimum never exceeds its starting value. -/
theorem foldl_min_le_init (f : ShapeGeometry → ℚ) (l : List ShapeGeometry) :
    ∀ a : ℚ, l.foldl (fun a x => min a (f x)) a ≤ a := by
  induction l with
  | nil => intro a; exact le_refl a
  | cons s rest ih =>
    intro a
    exact le_trans (ih (min a (f s))) (min_le_left _ _)

/-- A running minimum is a lower bound of the visited values. -/
theorem foldl_min_le_mem (f : ShapeGeometry → ℚ) (l : List ShapeGeometry) :
    ∀ a : ℚ, ∀ s ∈ l, l.foldl (fun a x => min a (f x)) a ≤ f s := by
  induction l with
  | nil => intro a s hs; exact absurd hs (List.not_mem_nil s)
  | cons x rest ih =>
    intro a s hs
    rcases List.mem_cons.mp hs with rfl | hmem
    · exact le_trans (foldl_min_le_init f rest _) (min_le_right _ _)
    · exact ih _ s hmem

/-- Any common lower bound also bounds the running minimum. -/
theorem le_foldl_min (f : ShapeGeometry → ℚ) (l : List ShapeGeometry) :
    ∀ a c : ℚ, c ≤ a → (∀ s ∈ l, c ≤ f s) →
      c ≤ l.foldl (fun a x => min a (f x)) a := by
  induction l with
  | nil => intro a c hca _; exact hca
  | cons x rest ih =>
    intro a c hca hall
    exact ih _ c (le_min hca (hall x (List.mem_cons_self _ _)))
      (fun s hs => hall s (List.mem_cons_of_mem _ hs))

/-- The running minimum is attained at the start or at a visited value. -/
theorem foldl_min_mem_or (f : ShapeGeometry → ℚ) (l : List ShapeGeometry) :
    ∀ a : ℚ, l.foldl (fun a x => min a (f x)) a = a ∨
      ∃ s ∈ l, l.foldl (fun a x => min a (f x)) a = f s := by
  induction l with
  | nil => intro a; exact Or.inl rfl
  | cons x rest ih =>
    intro a
    rcases ih (min a (f x)) with h | ⟨s, hs, heq⟩
    · rcases min_choice a (f x) with hm | hm
      · left
        simpa [hm] using h
      · right
        exact ⟨x, List.mem_cons_self _ _, by simpa [hm] using h⟩
    · exact Or.inr ⟨s, List.mem_cons_of_mem _ hs, heq⟩

/-- `foldMinF` is a lower bound of all values. -/
theorem foldMinF_le (f : ShapeGeometry → ℚ) (l : List ShapeGeometry)
    (s : ShapeGeometry) (hs : s ∈ l) : foldMinF f l ≤ f s := by
  match l, hs with
  | x :: rest, hs =>
    rcases List.mem_cons.mp hs with rfl | hmem
    · exact foldl_min_le_init f rest (f s)
    · exact foldl_min_le_mem f rest (f x) s hmem

/-- `foldMinF` of a nonempty list is above any common lower bound. -/
theorem le_foldMinF (f : ShapeGeometry → ℚ) (l : List ShapeGeometry) (c : ℚ)
    (hne : l ≠ []) (h : ∀ s ∈ l, c ≤ f s) : c ≤ foldMinF f l := by
  match l, hne with
  | x :: rest, _ =>
    exact le_foldl_min f rest (f x) c (h x (List.mem_cons_self _ _))
      (fun s hs => h s (List.mem_cons_of_mem _ hs))

/-- `foldMinF` of a nonempty list is attained. -/
theorem foldMinF_mem (f : ShapeGeometry → ℚ) (l : List ShapeGeometry)
    (hne : l ≠ []) : ∃ s ∈ l, foldMinF f l = f s := by
  match l, hne with
  | x :: rest, _ =>
    rcases foldl_min_mem_or f rest (f x) with h | ⟨s, hs, heq⟩
    · exact ⟨x, List.mem_cons_self _ _, h⟩
    · exact ⟨s, List.mem_cons_of_mem _ hs, heq⟩

/-- `foldMinF` only depends on the multiset of values. -/
theorem foldMinF_perm (f : ShapeGeometry → ℚ) {l1 l2 : List ShapeGeometry}
    (hp : l1.Perm l2) (h1 : l1 ≠ []) : foldMinF f l1 = foldMinF f l2 := by
  have h2 : l2 ≠ [] := by
    intro hnil
    exact h1 (List.Perm.eq_nil (hnil ▸ hp))
  obtain ⟨s1, hs1, he1⟩ := foldMinF_mem f l1 h1
  obtain ⟨s2, hs2, he2⟩ := foldMinF_mem f l2 h2
  apply le_antisymm
  · rw [he2]
    exact foldMinF_le f l1 s2 (hp.mem_iff.mpr hs2)
  · rw [he1]
    exact foldMinF_le f l2 s1 (hp.mem_iff.mp hs1)

/-- A running maximum never falls below its starting value. -/
theorem foldl_max_ge_init (f : ShapeGeometry → ℚ) (l : List ShapeGeometry) :
    ∀ a : ℚ, a ≤ l.foldl (fun a x => max a (f x)) a := by
  induction l with
  | nil => intro a; exact le_refl a
  | cons s rest ih =>
    intro a
    exact le_trans (le_max_left _ _) (ih (max a (f s)))

/-- A running maximum is an upper bound of the visited values. -/
theorem foldl_max_ge_mem (f : ShapeGeometry → ℚ) (l : List ShapeGeometry) :
    ∀ a : ℚ, ∀ s ∈ l, f s ≤ l.foldl (fun a x => max a (f x)) a := by
  induction l with
  | nil => intro a s hs; exact absurd hs (List.not_mem_nil s)
  | cons x rest ih =>
    intro a s hs
    rcases List.mem_cons.mp hs with rfl | hmem
    · exact le_trans (le_max_right _ _) (foldl_max_ge_init f rest _)
    · exact ih _ s hmem

/-- Any common upper bound also bounds the running maximum. -/
theorem foldl_max_le (f : ShapeGeometry → ℚ) (l : List ShapeGeometry) :
    ∀ a c : ℚ, a ≤ c → (∀ s ∈ l, f s ≤ c) →
      l.foldl (fun a x => max a (f x)) a ≤ c := by
  induction l with
  | nil => intro a c hac _; exact hac
  | cons x rest ih =>
    intro a c hac hall
    exact ih _ c (max_le hac (hall x (List.mem_cons_self _ _)))
      (fun s hs => hall s (List.mem_cons_of_mem _ hs))

/-- The running maximum is attained at the start or at a visited value. -/
theorem foldl_max_mem_or (f : ShapeGeometry → ℚ) (l : List ShapeGeometry) :
    ∀ a : ℚ, l.foldl (fun a x => max a (f x)) a = a ∨
      ∃ s ∈ l, l.foldl (fun a x => max a (f x)) a = f s := by
  induction l with
  | nil => intro a; exact Or.inl rfl
  | cons x rest ih =>
    intro a
    rcases ih (max a (f x)) with h | ⟨s, hs, heq⟩
    · rcases max_choice a (f x) with hm | hm
      · left
        simpa [hm] using h
      · right
        exact ⟨x, List.mem_cons_self _ _, by simpa [hm] using h⟩
    · exact Or.inr ⟨s, List.mem_cons_of_mem _ hs, heq⟩

/-- `foldMaxF` is an upper bound of all values. -/
theorem foldMaxF_ge (f : ShapeGeometry → ℚ) (l : List ShapeGeometry)
    (s : ShapeGeometry) (hs : s ∈ l) : f s ≤ foldMaxF f l := by
  match l, hs with
  | x :: rest, hs =>
    rcases List.mem_cons.mp hs with rfl | hmem
    · exact foldl_max_ge_init f rest (f s)
    · exact foldl_max_ge_mem f rest (f x) s hmem

/-- `foldMaxF` of a nonempty list is below any common upper bound. -/
theorem foldMaxF_le (f : ShapeGeometry → ℚ) (l : List ShapeGeometry) (c : ℚ)
    (hne : l ≠ []) (h : ∀ s ∈ l, f s ≤ c) : foldMaxF f l ≤ c := by
  match l, hne with
  | x :: rest, _ =>
    exact foldl_max_le f rest (f x) c (h x (List.mem_cons_self _ _))
      (fun s hs => h s (List.mem_cons_of_mem _ hs))

/-- `foldMaxF` of a nonempty list is attained. -/
theorem foldMaxF_mem (f : ShapeGeometry → ℚ) (l : List ShapeGeometry)
    (hne : l ≠ []) : ∃ s ∈ l, foldMaxF f l = f s := by
  match l, hne with
  | x :: rest, _ =>
    rcases foldl_max_mem_or f rest (f x) with h | ⟨s, hs, heq⟩
    · exact ⟨x, List.mem_cons_self _ _, h⟩
    · exact ⟨s, List.mem_cons_of_mem _ hs, heq⟩

/-- `foldMaxF` only depends on the multiset of values. -/
theorem foldMaxF_perm (f : ShapeGeometry → ℚ) {l1 l2 : List ShapeGeometry}
    (hp : l1.Perm l2) (h1 : l1 ≠ []) : foldMaxF f l1 = foldMaxF f l2 := by
  have h2 : l2 ≠ [] := by
    intro hnil
    exact h1 (List.Perm.eq_nil (hnil ▸ hp))
  obtain ⟨s1, hs1, he1⟩ := foldMaxF_mem f l1 h1
  obtain ⟨s2, hs2, he2⟩ := foldMaxF_mem f l2 h2
  apply le_antisymm
  · rw [he1]
    exact foldMaxF_ge f l2 s1 (hp.mem_iff.mp hs1)
  · rw [he2]
    exact foldMaxF_ge f l1 s2 (hp.mem_iff.mpr hs2)

/-- `_calculate_bbox` only depends on the multiset of shapes. -/
theorem bbox_perm {l1 l2 : List ShapeGeometry} (hp : l1.Perm l2)
    (h1 : l1 ≠ []) : _calculate_bbox l1 = _calculate_bbox l2 := by
  unfold _calculate_bbox
  rw [foldMinF_perm _ hp h1, foldMinF_perm _ hp h1,
    foldMaxF_perm _ hp h1, foldMaxF_perm _ hp h1]

/-- C8: whenever a table is returned, its bbox is
`[min(left), min(top), max(left+width), max(top+height)]` over all
validated shapes, it contains every validated shape, and it is contained
in every axis-aligned rectangle containing all of them — i.e. it is the
smallest such rectangle. -/
theorem C8_bbox (cfg : Config) (raw : List RawShape)
    (l : List PseudoTable) (t : PseudoTable) (h : parse cfg raw = .ok l)
    (ht : t ∈ l) :
    ∃ v, validateShapes raw = .ok v ∧ v ≠ [] ∧
      t.bbox = _calculate_bbox v ∧
      t.bbox = [foldMinF (fun s => s.left) v, foldMinF (fun s => s.top) v,
                foldMaxF (fun s => s.left + s.width) v,
                foldMaxF (fun s => s.top + s.height) v] ∧
      (∀ s ∈ v, foldMinF (fun s => s.left) v ≤ s.left ∧
        foldMinF (fun s => s.top) v ≤ s.top ∧
        s.left + s.width ≤ foldMaxF (fun s => s.left + s.width) v ∧
        s.top + s.height ≤ foldMaxF (fun s => s.top + s.height) v) ∧
      (∀ L T R B : ℚ,
        (∀ s ∈ v, L ≤ s.left ∧ T ≤ s.top ∧
          s.left + s.width ≤ R ∧ s.top + s.height ≤ B) →
        L ≤ foldMinF (fun s => s.left) v ∧ T ≤ foldMinF (fun s => s.top) v ∧
        foldMaxF (fun s => s.left + s.width) v ≤ R ∧
        foldMaxF (fun s => s.top + s.height) v ≤ B) := by
  obtain ⟨v, hv, hcase⟩ := parse_ok_cases cfg raw l h
  rcases hcase with ⟨_, rfl⟩ | ⟨_, ⟨hrow, hne⟩ | ⟨hrow0, hcol⟩⟩
  · exact absurd ht (List.not_mem_nil t)
  · rcases tryRow_ok_cases cfg v l hrow with rfl | ⟨rows, columns, hr, hc, hnr, hnc, hval, rfl⟩
    · exact absurd ht (List.not_mem_nil t)
    · have hts := List.mem_singleton.mp ht
      subst hts
      have hrowsne : rows ≠ [] := validate_grid_true_rows_ne rows columns hval
      have hsne : List.insertionSort rowKeyLe v ≠ [] := by
        intro hnil
        apply hrowsne
        rw [hr, hnil]
        rfl
      have hperm : (List.insertionSort rowKeyLe v).Perm v :=
        List.perm_insertionSort rowKeyLe v
      have hvne : v ≠ [] := by
        intro hnil
        apply hsne
        rw [hnil]
        rfl
      refine ⟨v, hv, hvne, bbox_perm hperm hsne, bbox_perm hperm hsne, ?_, ?_⟩
      · intro s hs
        exact ⟨foldMinF_le _ v s hs, foldMinF_le _ v s hs,
          foldMaxF_ge _ v s hs, foldMaxF_ge _ v s hs⟩
      · intro L T R B hall
        exact ⟨le_foldMinF _ v L hvne (fun s hs => (hall s hs).1),
          le_foldMinF _ v T hvne (fun s hs => (hall s hs).2.1),
          foldMaxF_le _ v R hvne (fun s hs => (hall s hs).2.2.1),
          foldMaxF_le _ v B hvne (fun s hs => (hall s hs).2.2.2)⟩
  · rcases tryCol_ok_cases cfg v l hcol with rfl | ⟨columns, rows, hc, hr, hnc, hnr, hval, rfl⟩
    · exact absurd ht (List.not_mem_nil t)
    · have hts := List.mem_singleton.mp ht
      subst hts
      have hcolsne : columns ≠ [] := validate_column_grid_true_cols_ne columns rows hval
      have hsne : List.insertionSort colKeyLe v ≠ [] := by
        intro hnil
        apply hcolsne
        rw [hc, hnil]
        rfl
      have hperm : (List.insertionSort colKeyLe v).Perm v :=
        List.perm_insertionSort colKeyLe v
      have hvne : v ≠ [] := by
        intro hnil
        apply hsne
        rw [hnil]
        rfl
      refine ⟨v, hv, hvne, bbox_perm hperm hsne, bbox_perm hperm hsne, ?_, ?_⟩
      · intro s hs
        exact ⟨foldMinF_le _ v s hs, foldMinF_le _ v s hs,
          foldMaxF_ge _ v s hs, foldMaxF_ge _ v s hs⟩
      · intro L T R B hall
        exact ⟨le_foldMinF _ v L hvne (fun s hs => (hall s hs).1),
          le_foldMinF _ v T hvne (fun s hs => (hall s hs).2.1),
          foldMaxF_le _ v R hvne (fun s hs => (hall s hs).2.2.1),
          foldMaxF_le _ v B hvne (fun s hs => (hall s hs).2.2.2)⟩

/-- C8 witness: on the example input the bbox is the hull of the six
validated shapes. -/
theorem C8_witness :
    ∃ v, validateShapes demoShapes = .ok v ∧ v ≠ [] ∧
      demoTable.bbox = _calculate_bbox v :=
  match C8_bbox cfgDemo demoShapes [demoTable] demoTable
    (by with_unfolding_all rfl) (List.mem_singleton.mpr rfl) with
  | ⟨v, h1, h2, h3, _⟩ => ⟨v, h1, h2, h3⟩

/-- The row-clustering loop, related to the spec's fold formulation: the
rows finished so far prefix the rows still to be produced. -/
theorem clusterRowsAux_eq_foldl (ytol : ℚ) :
    ∀ (rest : List ShapeGeometry) (done : List (List ShapeGeometry))
      (cur : List ShapeGeometry) (a : ℚ),
      done ++ clusterRowsAux ytol cur a rest =
        (rest.foldl
          (fun (st : List (List ShapeGeometry) × List ShapeGeometry × ℚ) sh =>
            if |sh.top - st.2.2| ≤ ytol then (st.1, st.2.1 ++ [sh], st.2.2)
            else (st.1 ++ [st.2.1], [sh], sh.top))
          (done, cur, a)).1 ++
        [(rest.foldl
          (fun (st : List (List ShapeGeometry) × List ShapeGeometry × ℚ) sh =>
            if |sh.top - st.2.2| ≤ ytol then (st.1, st.2.1 ++ [sh], st.2.2)
            else (st.1 ++ [st.2.1], [sh], sh.top))
          (done, cur, a)).2.1] := by
  intro rest
  induction rest with
  | nil =>
    intro done cur a
    rfl
  | cons s rest ih =>
    intro done cur a
    simp only [List.foldl_cons]
    by_cases hs : |s.top - a| ≤ ytol
    · rw [clusterRowsAux, if_pos hs, if_pos hs]
      exact ih done (cur ++ [s]) a
    · rw [clusterRowsAux, if_neg hs, if_neg hs]
      calc done ++ (cur :: clusterRowsAux ytol [s] s.top rest)
          = (done ++ [cur]) ++ clusterRowsAux ytol [s] s.top rest := by
            simp
        _ = _ := ih (done ++ [cur]) [s] s.top

/-- The center-detection loop, related to the spec's fold formulation:
the carried `acc.2` is always the last accepted center. -/
theorem detectAux_eq (tol : ℚ) (d : ℚ) :
    ∀ (rest : List ℚ) (cols : List ℚ) (lastv : ℚ),
      cols ≠ [] → cols.getLastD d = lastv →
      (rest.foldl (fun (acc : List ℚ × ℚ) l =>
         if |l - acc.2| > tol then (acc.1 ++ [l], l) else acc) (cols, lastv)).1 =
      rest.foldl
        (fun cols l => if |l - cols.getLastD d| > tol then cols ++ [l] else cols)
        cols := by
  intro rest
  induction rest with
  | nil =>
    intro cols lastv _ _
    rfl
  | cons x rest ih =>
    intro cols lastv hne hlast
    simp only [List.foldl_cons, hlast]
    by_cases hx : |x - lastv| > tol
    · rw [if_pos hx, if_pos hx]
      exact ih (cols ++ [x]) x (by simp) (List.getLastD_concat d x cols)
    · rw [if_neg hx, if_neg hx]
      exact ih cols lastv hne hlast

/-- C7: row clustering and column-center detection are exactly the greedy
anchor-based folds described by the spec — a shape joins the current row
iff its `top` is within `y_tolerance` of the row's first shape's `top`
(the anchor never drifts), and a sorted `left` value starts a new column
iff it differs from the last accepted center by more than `x_tolerance`
(a merged value never updates the anchor). -/
theorem C7_greedy_anchor_folds :
    (∀ (ytol : ℚ) (shapes : List ShapeGeometry),
      clusterRowsCore ytol shapes = clusterRowsSpec ytol shapes ∧
      _cluster_rows ytol shapes =
        (clusterRowsSpec ytol shapes).map (List.insertionSort leftLe)) ∧
    (∀ (tol : ℚ) (vals : List ℚ),
      detectCenters tol vals = detectCentersSpec tol vals) ∧
    (∀ (xtol : ℚ) (rows : List (List ShapeGeometry)),
      _detect_columns xtol rows =
        detectCentersSpec xtol
          (List.insertionSort (· ≤ ·)
            ((rows.map (List.map ShapeGeometry.left)).flatten))) := by
  have hcluster : ∀ (ytol : ℚ) (shapes : List ShapeGeometry),
      clusterRowsCore ytol shapes = clusterRowsSpec ytol shapes := by
    intro ytol shapes
    cases shapes with
    | nil => rfl
    | cons s rest =>
      have := clusterRowsAux_eq_foldl ytol rest [] [s] s.top
      simpa [clusterRowsCore, clusterRowsSpec] using this
  have hcenters : ∀ (tol : ℚ) (vals : List ℚ),
      detectCenters tol vals = detectCentersSpec tol vals := by
    intro tol vals
    cases vals with
    | nil => rfl
    | cons v rest =>
      have := detectAux_eq tol v rest [v] v (by simp) (by simp)
      simpa [detectCenters, detectCentersSpec] using this
  refine ⟨fun ytol shapes => ⟨hcluster ytol shapes, ?_⟩, hcenters, ?_⟩
  · unfold _cluster_rows
    rw [hcluster]
  · intro xtol rows
    unfold _detect_columns
    rw [hcenters]

/-- The extracted cell at column `j` holds the trimmed text of the last
shape in the row whose best column is `j` within tolerance — later shapes
overwrite earlier ones assigned to the same cell. -/
theorem extractRow_last_wins (xtol : ℚ) (columns : List ℚ)
    (row : List ShapeGeometry) (j : ℕ) (hj : j < columns.length) :
    (extractRow xtol columns row).getD j none =
      Option.map (fun s => s.text.trim)
        ((row.filter
          (fun s => decide (bestColumn xtol columns s.left = some j))).getLast?) := by
  induction row using List.reverseRecOn with
  | nil =>
    simp [extractRow, List.getD_eq_getElem?_getD, List.getElem?_replicate, hj]
  | append_singleton l s ih =>
    have hstep : extractRow xtol columns (l ++ [s]) =
        match bestColumn xtol columns s.left with
        | some i => (extractRow xtol columns l).set i (some s.text.trim)
        | none => extractRow xtol columns l := by
      unfold extractRow
      rw [List.foldl_append]
      rfl
    have hlen : (extractRow xtol columns l).length = columns.length :=
      extractRow_length xtol columns l
    rcases hbc : bestColumn xtol columns s.left with _ | i
    · rw [hstep]
      simp only [hbc]
      rw [ih]
      have hpf : (decide (bestColumn xtol columns s.left = some j)) = false := by
        simp [hbc]
      simp [List.filter_append, hpf]
    · rw [hstep]
      simp only [hbc]
      by_cases hij : i = j
      · subst hij
        have hget : ((extractRow xtol columns l).set i (some s.text.trim)).getD i none =
            some s.text.trim := by
          rw [List.getD_eq_getElem?_getD, List.getElem?_set_self (by rw [hlen]; exact hj)]
          rfl
        have hpf : (decide (bestColumn xtol columns s.left = some i)) = true := by
          simp [hbc]
        rw [hget]
        simp [List.filter_append, hpf]
      · have hget : ((extractRow xtol columns l).set i (some s.text.trim)).getD j none =
            (extractRow xtol columns l).getD j none := by
          rw [List.getD_eq_getElem?_getD, List.getD_eq_getElem?_getD,
            List.getElem?_set_ne hij]
        have hpf : (decide (bestColumn xtol columns s.left = some j)) = false := by
          simp [hbc, hij]
        rw [hget, ih]
        simp [List.filter_append, hpf]

/-- C10: in row-based grid extraction, the cell at `(i, j)` holds the
trimmed text of the shape processed last among those of row `i` whose
nearest column center is `j` within `x_tolerance`; the earlier such
shapes' texts are absent. -/
theorem C10_last_shape_wins (xtol : ℚ) (columns : List ℚ)
    (rows : List (List ShapeGeometry)) (i j : ℕ)
    (hi : i < rows.length) (hj : j < columns.length) :
    ((_extract_grid_data xtol rows columns).getD i []).getD j none =
      Option.map (fun s => s.text.trim)
        (((rows.getD i []).filter
          (fun s => decide (bestColumn xtol columns s.left = some j))).getLast?) := by
  have hrow : (_extract_grid_data xtol rows columns).getD i [] =
      extractRow xtol columns (rows.getD i []) := by
    unfold _extract_grid_data
    rw [List.getD_eq_getElem?_getD, List.getD_eq_getElem?_getD,
      List.getElem?_map]
    rcases hg : rows[i]? with _ | r
    · exact absurd hg (by simp [hi])
    · rfl
  rw [hrow]
  exact extractRow_last_wins xtol columns (rows.getD i []) j hj

/-- C10 witness: in the fixture row, shapes "A" (left 50) and "B"
(left 55) both map to column center 50 within tolerance 10; the cell
holds "B", the text of the shape processed last, and "A" is absent. -/
theorem C10_witness :
    ((_extract_grid_data 10 [c10Row] [50, 160]).getD 0 []).getD 0 none =
      Option.map (fun s => s.text.trim)
        ((([c10Row].getD 0 []).filter
          (fun s => decide (bestColumn 10 [50, 160] s.left = some 0))).getLast?) ∧
    ((_extract_grid_data 10 [c10Row] [50, 160]).getD 0 []).getD 0 none = some "B" :=
  ⟨C10_last_shape_wins 10 [50, 160] [c10Row] 0 0 (by decide) (by decide),
   by with_unfolding_all rfl⟩

/-- Validation of one record errors exactly on a present non-string
`text`, and the error is always `AttributeError`. -/
theorem validateShape_error_iff (s : RawShape) (e : PyError) :
    validateShape s = .error e ↔ (s.text = .nonStr ∧ e = .attributeError) := by
  unfold validateShape
  rcases htext : s.text with t | _ | _
  · constructor
    · intro h
      by_cases htrim : t.trim = ""
      · simp [htrim] at h
      · simp only [htrim, if_false] at h
        split at h <;> simp at h
    · rintro ⟨h, _⟩
      simp at h
  · simp [eq_comm]
  · simp

/-- Unfolding of `validateShapes` on a cons cell. -/
theorem validateShapes_cons (s : RawShape) (rest : List RawShape) :
    validateShapes (s :: rest) =
      match validateShape s, validateShapes rest with
      | .error e, _ => .error e
      | .ok none, r => r
      | .ok (some _), .error e => .error e
      | .ok (some g), .ok l => .ok (g :: l) := by
  rw [validateShapes]
  rcases validateShape s with e | o
  · rfl
  · cases o with
    | none =>
      rcases validateShapes rest with e | l <;> rfl
    | some g =>
      rcases validateShapes rest with e | l <;> rfl

/-- The validation loop errors exactly when some record has a present
non-string `text`, and then the error is `AttributeError`. -/
theorem validateShapes_error_iff (shapes : List RawShape) :
    ∀ e : PyError, validateShapes shapes = .error e ↔
      (e = .attributeError ∧ ∃ s ∈ shapes, s.text = .nonStr) := by
  induction shapes with
  | nil =>
    intro e
    simp [validateShapes]
  | cons s rest ih =>
    intro e
    rw [validateShapes_cons]
    rcases hs : validateShape s with e' | o
    · have hse := (validateShape_error_iff s e').mp hs
      simp only []
      constructor
      · intro h
        have he : e' = e := by
          exact (Except.error.inj h)
        exact ⟨he ▸ hse.2, s, List.mem_cons_self _ _, hse.1⟩
      · rintro ⟨he, _⟩
        rw [hse.2, he]
    · have hsne : s.text ≠ .nonStr := by
        intro htext
        have : validateShape s = .error .attributeError :=
          (validateShape_error_iff s .attributeError).mpr ⟨htext, rfl⟩
        rw [hs] at this
        exact absurd this (by simp)
      cases o with
      | none =>
        simp only []
        rw [ih]
        constructor
        · rintro ⟨he, t, ht, htext⟩
          exact ⟨he, t, List.mem_cons_of_mem _ ht, htext⟩
        · rintro ⟨he, t, ht, htext⟩
          rcases List.mem_cons.mp ht with rfl | hmem
          · exact absurd htext hsne
          · exact ⟨he, t, hmem, htext⟩
      | some g =>
        rcases hrest : validateShapes rest with e'' | l
        · have hih := (ih e'').mp hrest
          simp only []
          constructor
          · intro h
            have he : e'' = e := Except.error.inj h
            obtain ⟨t, ht, htext⟩ := hih.2
            exact ⟨he ▸ hih.1, t, List.mem_cons_of_mem _ ht, htext⟩
          · rintro ⟨he, _⟩
            rw [hih.1, he]
        · simp only []
          constructor
          · intro h
            exact absurd h (by simp)
          · rintro ⟨he, t, ht, htext⟩
            rcases List.mem_cons.mp ht with rfl | hmem
            · exact absurd htext hsne
            · have : validateShapes rest = .error .attributeError :=
                (ih .attributeError).mpr ⟨rfl, t, hmem, htext⟩
              rw [hrest] at this
              exact absurd this (by simp)

/-- A permutation of the raw list permutes the validated list. -/
theorem validateShapes_perm_ok {l1 l2 : List RawShape} (hp : l1.Perm l2) :
    ∀ v1, validateShapes l1 = .ok v1 →
      ∃ v2, validateShapes l2 = .ok v2 ∧ v1.Perm v2 := by
  induction hp with
  | nil =>
    intro v1 h1
    exact ⟨v1, h1, List.Perm.refl v1⟩
  | cons x hp ih =>
    rename_i lA lB
    intro v1 h1
    rw [validateShapes_cons] at h1
    rcases hx : validateShape x with e | o
    · rw [hx] at h1
      exact absurd h1 (by simp)
    · rw [hx] at h1
      cases o with
      | none =>
        obtain ⟨v2, h2, hperm⟩ := ih v1 h1
        exact ⟨v2, by rw [validateShapes_cons, hx, h2], hperm⟩
      | some g =>
        rcases hrest : validateShapes lA with e | w1
        · rw [hrest] at h1
          exact absurd h1 (by simp)
        · rw [hrest] at h1
          have hv1 : g :: w1 = v1 := Except.ok.inj h1
          obtain ⟨w2, h2, hperm⟩ := ih w1 hrest
          exact ⟨g :: w2, by rw [validateShapes_cons, hx, h2], hv1 ▸ hperm.cons g⟩
  | swap x y l =>
    intro v1 h1
    rw [validateShapes_cons] at h1
    rcases hy : validateShape y with e | oy
    · rw [hy] at h1
      exact absurd h1 (by simp)
    · rw [hy, validateShapes_cons] at h1
      rcases hx : validateShape x with e | ox
      · rw [hx] at h1
        cases oy <;> exact absurd h1 (by simp [hx])
      · rw [hx] at h1
        cases oy with
        | none =>
          cases ox with
          | none =>
            exact ⟨v1, by rw [validateShapes_cons, hx, validateShapes_cons, hy, h1],
              List.Perm.refl v1⟩
          | some gx =>
            rcases hrest : validateShapes l with e | w
            · rw [hrest] at h1
              exact absurd h1 (by simp)
            · rw [hrest] at h1
              exact ⟨v1, by rw [validateShapes_cons, hx, validateShapes_cons, hy, hrest,
                ← Except.ok.inj h1], List.Perm.refl v1⟩
        | some gy =>
          cases ox with
          | none =>
            rcases hrest : validateShapes l with e | w
            · rw [hrest] at h1
              exact absurd h1 (by simp)
            · rw [hrest] at h1
              exact ⟨v1, by rw [validateShapes_cons, hx, validateShapes_cons, hy, hrest,
                ← Except.ok.inj h1], List.Perm.refl v1⟩
          | some gx =>
            rcases hrest : validateShapes l with e | w
            · rw [hrest] at h1
              exact absurd h1 (by simp)
            · rw [hrest] at h1
              have hv1 : gy :: gx :: w = v1 := Except.ok.inj h1
              refine ⟨gx :: gy :: w,
                by rw [validateShapes_cons, hx, validateShapes_cons, hy, hrest], ?_⟩
              rw [← hv1]
              exact List.Perm.swap gx gy w
  | trans hp1 hp2 ih1 ih2 =>
    intro v1 h1
    obtain ⟨v2, h2, hperm12⟩ := ih1 v1 h1
    obtain ⟨v3, h3, hperm23⟩ := ih2 v2 h2
    exact ⟨v3, h3, hperm12.trans hperm23⟩

/-- Two sorted permutations of each other are equal when the order is
antisymmetric on the first list's members. -/
theorem sorted_perm_eq {α : Type} {r : α → α → Prop} :
    ∀ {l1 l2 : List α}, l1.Perm l2 → l1.Sorted r → l2.Sorted r →
      (∀ a ∈ l1, ∀ b ∈ l1, r a b → r b a → a = b) → l1 = l2 := by
  intro l1
  induction l1 with
  | nil =>
    intro l2 hp _ _ _
    exact (List.perm_nil.mp hp.symm).symm
  | cons a t1 ih =>
    intro l2 hp hs1 hs2 hanti
    cases l2 with
    | nil => exact absurd (List.perm_nil.mp hp) (by simp)
    | cons b t2 =>
      have hab : a = b := by
        by_cases h : a = b
        · exact h
        · have hamem : a ∈ b :: t2 := hp.mem_iff.mp (List.mem_cons_self _ _)
          have hat2 : a ∈ t2 := by
            rcases List.mem_cons.mp hamem with h' | h'
            · exact absurd h' h
            · exact h'
          have hbmem : b ∈ a :: t1 := hp.mem_iff.mpr (List.mem_cons_self _ _)
          have hbt1 : b ∈ t1 := by
            rcases List.mem_cons.mp hbmem with h' | h'
            · exact absurd h'.symm h
            · exact h'
          have hrab : r a b := ((List.sorted_cons.mp hs1).1) b hbt1
          have hrba : r b a := ((List.sorted_cons.mp hs2).1) a hat2
          exact hanti a (List.mem_cons_self _ _) b (List.mem_cons_of_mem _ hbt1)
            hrab hrba
      subst hab
      have hpt : t1.Perm t2 := hp.cons_inv
      have ht := ih hpt (List.sorted_cons.mp hs1).2 (List.sorted_cons.mp hs2).2
        (fun x hx y hy hxy hyx =>
          hanti x (List.mem_cons_of_mem _ hx) y (List.mem_cons_of_mem _ hy) hxy hyx)
      rw [ht]

/-- C6 (amended): permuting the input preserves the whole `parse` result —
including the grid data — provided no two validated shapes share the
same (top, left) position without being equal.  (The counterexample shows
the restriction is necessary: coincident shapes with different texts make
the extracted cell depend on caller order.) -/
theorem C6_order_invariance (cfg : Config) (l1 l2 : List RawShape)
    (hp : l1.Perm l2)
    (huniq : ∀ v, validateShapes l1 = .ok v →
      ∀ a ∈ v, ∀ b ∈ v, a.top = b.top → a.left = b.left → a = b) :
    parse cfg l1 = parse cfg l2 := by
  rcases hres : validateShapes l1 with e | v1
  · have h1 := (validateShapes_error_iff l1 e).mp hres
    obtain ⟨s, hs, htext⟩ := h1.2
    have h2 : validateShapes l2 = .error e :=
      (validateShapes_error_iff l2 e).mpr ⟨h1.1, s, hp.mem_iff.mp hs, htext⟩
    unfold parse
    rw [hres, h2]
  · obtain ⟨v2, hv2, hvp⟩ := validateShapes_perm_ok hp v1 hres
    have huniq1 := huniq v1 hres
    have hantirow : ∀ a ∈ List.insertionSort rowKeyLe v1,
        ∀ b ∈ List.insertionSort rowKeyLe v1, rowKeyLe a b → rowKeyLe b a → a = b := by
      intro a ha b hb hab hba
      have ha' : a ∈ v1 := (List.perm_insertionSort rowKeyLe v1).mem_iff.mp ha
      have hb' : b ∈ v1 := (List.perm_insertionSort rowKeyLe v1).mem_iff.mp hb
      rcases hab with h1 | ⟨ht1, hl1⟩ <;> rcases hba with h2 | ⟨ht2, hl2⟩
      · exact absurd h2 (lt_asymm h1)
      · exact absurd (ht2 ▸ h1) (lt_irrefl _)
      · exact absurd (ht1 ▸ h2) (lt_irrefl _)
      · exact huniq1 a ha' b hb' ht1 (le_antisymm hl1 hl2)
    have hanticol : ∀ a ∈ List.insertionSort colKeyLe v1,
        ∀ b ∈ List.insertionSort colKeyLe v1, colKeyLe a b → colKeyLe b a → a = b := by
      intro a ha b hb hab hba
      have ha' : a ∈ v1 := (List.perm_insertionSort colKeyLe v1).mem_iff.mp ha
      have hb' : b ∈ v1 := (List.perm_insertionSort colKeyLe v1).mem_iff.mp hb
      rcases hab with h1 | ⟨ht1, hl1⟩ <;> rcases hba with h2 | ⟨ht2, hl2⟩
      · exact absurd h2 (lt_asymm h1)
      · exact absurd (ht2 ▸ h1) (lt_irrefl _)
      · exact absurd (ht1 ▸ h2) (lt_irrefl _)
      · exact huniq1 a ha' b hb' (le_antisymm hl1 hl2) ht1
    have hsortrow : List.insertionSort rowKeyLe v1 = List.insertionSort rowKeyLe v2 :=
      sorted_perm_eq
        ((List.perm_insertionSort rowKeyLe v1).trans
          (hvp.trans (List.perm_insertionSort rowKeyLe v2).symm))
        (List.sorted_insertionSort rowKeyLe v1)
        (List.sorted_insertionSort rowKeyLe v2) hantirow
    have hsortcol : List.insertionSort colKeyLe v1 = List.insertionSort colKeyLe v2 :=
      sorted_perm_eq
        ((List.perm_insertionSort colKeyLe v1).trans
          (hvp.trans (List.perm_insertionSort colKeyLe v2).symm))
        (List.sorted_insertionSort colKeyLe v1)
        (List.sorted_insertionSort colKeyLe v2) hanticol
    have hrow : _try_row_based_detection cfg v1 = _try_row_based_detection cfg v2 := by
      unfold _try_row_based_detection
      rw [hsortrow]
    have hcol : _try_column_based_detection cfg v1 = _try_column_based_detection cfg v2 := by
      unfold _try_column_based_detection
      rw [hsortcol]
    have hlen : v1.length = v2.length := hvp.length_eq
    unfold parse
    rw [hres, hv2]
    simp only [hlen, hrow, hcol]

/-- C6 witness: reversing the example input leaves the parse result
unchanged (its validated shapes have pairwise distinct positions). -/
theorem C6_witness :
    parse cfgDemo demoShapes = parse cfgDemo demoShapes.reverse :=
  C6_order_invariance cfgDemo demoShapes demoShapes.reverse
    (List.reverse_perm demoShapes).symm
    (by
      intro v hv
      have hval : validateShapes demoShapes = .ok demoValidated := by
        with_unfolding_all rfl
      rw [hval] at hv
      have hveq : demoValidated = v := Except.ok.inj hv
      rw [← hveq]
      with_unfolding_all decide)

end PPT
